import Mathlib

/-!
Verification of the pybrother label-printer raster encoder.

This file gives a shallow embedding of the Python sources
(`brother_printer.py`, `png_label_printer.py`, `python_ipp_printer.py`):
pure functions become Lean functions, byte strings become `List Nat`
(each entry a byte value), Python floats used for the feed margin become
exact rationals, and fallible code (dictionary lookups that may raise
`KeyError`, bytearray indexing that may raise `IndexError`, `struct.pack`
range errors) returns `Option`.
-/

/-- Tape cassette profile: one entry of the `TAPE_SPECS` catalogue
(`mm`, `media_byte`, `pins` fields of the Python dict). -/
structure TapeSpec where
  mm : ℚ
  media_byte : Nat
  pins : Nat
deriving DecidableEq

/-- Monochrome bitmap in the dict format produced by `png_to_bw_matrix`:
`width`, `height`, and a row-major grid of 0/1 integers. -/
structure BWMatrix where
  width : Nat
  height : Nat
  data : List (List Nat)
deriving DecidableEq

/-- The `TAPE_SPECS` catalogue of `brother_printer.py` (lines 52-59),
as an ordered association list mirroring the Python dict. -/
def TAPE_SPECS : List (String × TapeSpec) :=
  [("W3_5", ⟨7/2, 0x04, 24⟩),
   ("W6", ⟨6, 0x06, 32⟩),
   ("W9", ⟨9, 0x09, 50⟩),
   ("W12", ⟨12, 0x0C, 70⟩),
   ("W18", ⟨18, 0x12, 112⟩),
   ("W24", ⟨24, 0x18, 128⟩)]

/-- Dictionary access `TAPE_SPECS[tape_key]`; `none` models the Python
`KeyError` raised for a key outside the catalogue. -/
def lookupTape (tape_key : String) : Option TapeSpec :=
  TAPE_SPECS.lookup tape_key

/-- Truncation toward zero, the behaviour of Python `int()` on an exact
numeric value. -/
def truncInt (q : ℚ) : ℤ := if 0 ≤ q then ⌊q⌋ else ⌈q⌉

/-- Resolution-dependent dot pitch: `dots_per_mm = 14 if hi_res else 7`
(`brother_printer.py` line 219). -/
def dots_per_mm (hi_res : Bool) : Nat := if hi_res then 14 else 7

/-- Feed margin in dots: `margin_dots = int(dots_per_mm * feed_mm)`
(`brother_printer.py` line 220). -/
def margin_dots (hi_res : Bool) (feed_mm : ℚ) : ℤ :=
  truncInt ((dots_per_mm hi_res : ℚ) * feed_mm)

/-- Little-endian 16-bit packing, `struct.pack("<H", n)`; `none` models the
`struct.error` raised outside the unsigned 16-bit range. -/
def packUInt16LE (n : ℤ) : Option (List Nat) :=
  if 0 ≤ n ∧ n < 65536 then some [n.toNat % 256, n.toNat / 256] else none

/-- Advanced-mode settings byte: `adv = 0x0C`, then `adv |= 0x40` when
`hi_res` (`brother_printer.py` lines 207-209). -/
def advByte (hi_res : Bool) : Nat := 0x0C ||| (if hi_res then 0x40 else 0)

/-- The 13-byte print-information frame `ESC i z ...`
(`brother_printer.py` lines 171-188). -/
def mediaFrame (spec : TapeSpec) : List Nat :=
  [0x1B, 0x69, 0x7A, 0x84, 0x00, spec.media_byte, 0x00, 0xAA, 0x02, 0x00, 0x00, 0x00, 0x00]

/-- Number of print-head pins, `pins_total = 128`
(`brother_printer.py` line 232). -/
def pins_total : Nat := 128

/-- Bytearray update `row[idx] |= 1 << off`; `none` models the
`IndexError` raised when `idx` is not a valid index. -/
def setBit (row : List Nat) (idx off : Nat) : Option (List Nat) :=
  if idx < row.length then some (row.set idx (row.getD idx 0 ||| (1 <<< off))) else none

/-- Pixel access `matrix["data"][y][x]` (0 when out of the stored grid). -/
def bitAt (m : BWMatrix) (y x : Nat) : Nat := (m.data.getD y []).getD x 0

/-- Body of the inner `for y in range(h)` loop of the graphics encoder
(`brother_printer.py` lines 255-260): a set pixel ORs one bit into the
20-byte row buffer at `byte_index = 4 + bitpos // 8`,
`bit_offset = 7 - bitpos % 8` where `bitpos = y + blank_left`. -/
def columnStep (m : BWMatrix) (blank x : Nat) (row : List Nat) (y : Nat) : Option (List Nat) :=
  if bitAt m y x ≠ 0 then
    setBit row (4 + (y + blank) / 8) (7 - (y + blank) % 8)
  else some row

/-- Initial 20-byte row buffer: `bytearray(20)` with
`row[0] = 0x47, row[1] = 0x11, row[2] = 0x00, row[3] = 0x0F`
(`brother_printer.py` lines 240-250). -/
def columnInit : List Nat := [0x47, 0x11, 0x00, 0x0F] ++ List.replicate 16 0

/-- One 20-byte graphics frame for column `x`
(`brother_printer.py` lines 235-262). -/
def rasterColumn (m : BWMatrix) (blank x : Nat) : Option (List Nat) :=
  (List.range m.height).foldlM (columnStep m blank x) columnInit

/-- The raster encoder `convert_to_brother_raster(matrix, spec, hi_res,
feed_mm, auto_cut)` of `brother_printer.py` lines 139-269.  The output is
the concatenation of all chunks appended to `data`; `none` models any
exception raised before the final `b"".join(data)` returns, in which case
the caller receives no bytes at all. -/
def convert_to_brother_raster (m : BWMatrix) (spec : TapeSpec) (hi_res : Bool)
    (feed_mm : ℚ) (auto_cut : Bool) : Option (List Nat) := do
  let marginBytes ← packUInt16LE (margin_dots hi_res feed_mm)
  let blank_left := (pins_total - spec.pins) / 2
  let cols ← (List.range m.width).mapM (rasterColumn m blank_left)
  some (List.replicate 400 0 ++
    [0x1B, 0x40] ++
    [0x1B, 0x69, 0x61, 0x01] ++
    mediaFrame spec ++
    (if auto_cut then [0x1B, 0x69, 0x4D, 0x40] else []) ++
    [0x1B, 0x69, 0x41, 0x01] ++
    [0x1B, 0x69, 0x4B, advByte hi_res] ++
    ([0x1B, 0x69, 0x64] ++ marginBytes) ++
    [0x4D, 0x02] ++
    cols.flatten ++
    [0x1A])

/-- Guarded bytearray update of `png_label_printer.py` lines 206-207:
`if byte_num < len(row_buffer): row_buffer[byte_num] |= (1 << (7 - bit_offset))`.
An out-of-range index is silently skipped, never an error. -/
def pngLabel_setPixel (row : List Nat) (byteNum bitOff : Nat) : List Nat :=
  if byteNum < row.length then row.set byteNum (row.getD byteNum 0 ||| (1 <<< (7 - bitOff))) else row

/-- Centering margin of `png_label_printer.py` lines 187-195:
`tape_dots = tape_width * (14 if high_resolution else 7)` and
`margin = (128 - tape_dots) // 2` when `tape_width == 6`, else 0. -/
def pngLabel_margin (tape_width : Nat) (high_res : Bool) : Nat :=
  let tape_dots := tape_width * (if high_res then 14 else 7)
  if tape_width = 6 then (128 - tape_dots) / 2 else 0

/-- Initial row buffer of `png_label_printer.py` lines 180-185. -/
def pngLabel_columnInit : List Nat := [0x47, 0x11, 0x00, 0x0F] ++ List.replicate 16 0

/-- One 20-byte graphics frame of `png_label_printer.py` lines 178-209;
note the `== 1` pixel test and the silent bounds guard. -/
def pngLabel_column (m : BWMatrix) (margin x : Nat) : List Nat :=
  (List.range m.height).foldl (fun row y =>
    if bitAt m y x = 1 then
      pngLabel_setPixel row ((y + margin) / 8 + 4) ((y + margin) % 8)
    else row) pngLabel_columnInit

/-- The encoder variant `convert_to_brother_raster(image_matrix, tape_width,
high_resolution)` of `png_label_printer.py` lines 133-219.  It is total:
no code path raises. -/
def pngLabel_convert_to_brother_raster (m : BWMatrix) (tape_width : Nat)
    (high_res : Bool) : List Nat :=
  List.replicate 400 0 ++
  [0x1B, 0x40] ++
  [0x1B, 0x69, 0x61, 0x01] ++
  [0x1B, 0x69, 0x7A, 0x84, 0x00, tape_width, 0x00, 0xAA, 0x02, 0x00, 0x00, 0x00, 0x00] ++
  [0x1B, 0x69, 0x4D, 0x40] ++
  [0x1B, 0x69, 0x41, 0x01] ++
  [0x1B, 0x69, 0x4B, 0x0C ||| ((if high_res then 1 else 0) <<< 6)] ++
  [0x1B, 0x69, 0x64, 14 * (if high_res then 2 else 1), 0x00] ++
  [0x4D, 0x02] ++
  ((List.range m.width).map (pngLabel_column m (pngLabel_margin tape_width high_res))).flatten ++
  [0x1A]

/-- Grayscale image boundary object: width, height, and the pixel value
returned by `img.getpixel((x, y))` (mode "L", one integer per pixel). -/
structure GrayImage where
  w : Nat
  h : Nat
  pix : Nat → Nat → Nat

/-- The matrix conversion `png_to_bw_matrix(img, threshold)` of
`brother_printer.py` lines 127-136, built from nested comprehensions over
`getpixel`. -/
def png_to_bw_matrix (img : GrayImage) (threshold : Nat) : BWMatrix :=
  { width := img.w, height := img.h,
    data := (List.range img.h).map (fun y =>
      (List.range img.w).map (fun x => if img.pix x y < threshold then 1 else 0)) }

/-- Row-major pixel list `list(img.getdata())` of a mode-"L" image. -/
def getdata (img : GrayImage) : List Nat :=
  ((List.range img.h).map (fun y => (List.range img.w).map (fun x => img.pix x y))).flatten

/-- The matrix conversion `png_to_black_white_matrix(img, threshold)` of
`png_label_printer.py` lines 90-131, which indexes the flat `getdata` list
at `y * width + x`. -/
def png_to_black_white_matrix (img : GrayImage) (threshold : Nat) : BWMatrix :=
  { width := img.w, height := img.h,
    data := (List.range img.h).map (fun y =>
      (List.range img.w).map (fun x =>
        if (getdata img).getD (y * img.w + x) 0 < threshold then 1 else 0)) }

/-- Python substring containment `pat in s` over explicit character lists. -/
def strContainsAux (pat : List Char) : List Char → Bool
  | [] => pat.isEmpty
  | c :: rest => pat.isPrefixOf (c :: rest) || strContainsAux pat rest

/-- Python `pat in s` on strings. -/
def strContains (s pat : String) : Bool := strContainsAux pat.data s.data

/-- Python `str.lower()` (character-wise lowering). -/
def lowerStr (s : String) : String := String.mk (s.data.map Char.toLower)

/-- The width-indicating substring patterns tested by `detect_tape_size`
(`brother_printer.py` lines 459-472), in the order the `elif` chain tests
them. -/
def widthPatterns : List String :=
  ["3.5", "3_5", "6x", "6mm", "_6x", "9x", "9mm", "_9x",
   "12x", "12mm", "_12x", "18x", "18mm", "_18x", "24x", "24mm", "_24x"]

/-- The `elif` chain of `detect_tape_size` applied to one media descriptor
(`brother_printer.py` lines 454-472): lower-case the string, return the
first width whose pattern group matches, else `none`. -/
def matchOne (media : String) : Option String :=
  let t := lowerStr media
  let c : String → Bool := fun pat => strContains t pat
  if c ("3.5") || c ("3_5") then some ("W3_5")
  else if c ("6x") || c ("6mm") || c ("_6x") then some ("W6")
  else if c ("9x") || c ("9mm") || c ("_9x") then some ("W9")
  else if c ("12x") || c ("12mm") || c ("_12x") then some ("W12")
  else if c ("18x") || c ("18mm") || c ("_18x") then some ("W18")
  else if c ("24x") || c ("24mm") || c ("_24x") then some ("W24")
  else none

/-- The hint-matching loop `for media in media_list` of `detect_tape_size`
(`brother_printer.py` lines 454-472): skip empty descriptors, return the
first match, fall through to `none` when nothing matches. -/
def detectFromMedia : List String → Option String
  | [] => none
  | media :: rest =>
    if media.isEmpty then detectFromMedia rest
    else
      match matchOne media with
      | some tape => some tape
      | none => detectFromMedia rest

/-- The caller fallback in `main` (`brother_printer.py` lines 630-642): a
detected tape size is used as is, `None` falls back to `"W6"`. -/
def chooseTapeSize : Option String → String
  | some tape => tape
  | none => "W6"

/-- Concrete 1-by-1 matrix with its single bit set, used as a witness input. -/
def testMatrix1 : BWMatrix := ⟨1, 1, [[1]]⟩

/-- The W3_5 profile (narrowest supported tape). -/
def spec_W3_5 : TapeSpec := ⟨7/2, 0x04, 24⟩

/-- The W24 profile (full-head tape). -/
def spec_W24 : TapeSpec := ⟨24, 0x18, 128⟩

/-- Tall matrix (107 rows, 1 column) whose only set bit, at row 106, maps at
or beyond pin 128 after centering. -/
def tallMatrix : BWMatrix := ⟨1, 107, List.replicate 106 [0] ++ [[1]]⟩

/-- The same matrix with every bit clear. -/
def blankTallMatrix : BWMatrix := ⟨1, 107, List.replicate 107 [0]⟩

/-- Tall matrix (129 rows, 1 column) with its only set bit at row 128. -/
def overflowMatrix : BWMatrix := ⟨1, 129, List.replicate 128 [0] ++ [[1]]⟩

/-! Helper lemmas about list indexing, used to reason about the mutable
20-byte row buffer. -/

lemma getD_set_of_ne {l : List Nat} {i j : Nat} {a : Nat} (h : i ≠ j) :
    (l.set i a).getD j 0 = l.getD j 0 := by
  simp [List.getD_eq_getElem?_getD, List.getElem?_set_ne h]

lemma getD_set_self {l : List Nat} {i : Nat} {a : Nat} (h : i < l.length) :
    (l.set i a).getD i 0 = a := by
  simp [List.getD_eq_getElem?_getD, List.getElem?_set_self h]

lemma getD_replicate_zero (n k : Nat) : (List.replicate n (0 : Nat)).getD k 0 = 0 := by
  simp only [List.getD_eq_getElem?_getD, List.getElem?_replicate]
  split <;> rfl

lemma columnInit_length : columnInit.length = 20 := by
  simp [columnInit]

lemma columnInit_getD_payload (k : Nat) : columnInit.getD (4 + k) 0 = 0 := by
  have h4 : 4 + k = k + 4 := by omega
  rw [columnInit, h4, List.getD_eq_getElem?_getD,
    List.getElem?_append_right (by simp)]
  have h5 : k + 4 - ([0x47, 0x11, 0x00, 0x0F] : List Nat).length = k := by simp
  rw [h5, List.getElem?_replicate]
  split <;> rfl

/-- Step function of the graphics loop preserves the row-buffer length. -/
lemma columnStep_length {m : BWMatrix} {blank x : Nat} {row row' : List Nat} {y : Nat}
    (h : columnStep m blank x row y = some row') : row'.length = row.length := by
  unfold columnStep setBit at h
  split at h
  · split at h
    · cases h; simp
    · cases h
  · cases h; rfl

/-- Full characterisation of the graphics-column fold: when every row index
maps to a pin below 128, the fold succeeds and produces a 20-byte buffer
whose header bytes are untouched and whose payload bits are exactly the
image bits shifted by the centering offset. -/
lemma rasterAux_spec (m : BWMatrix) (blank x : Nat) :
    ∀ h : Nat, (∀ y, y < h → y + blank < 128) →
    ∃ row, (List.range h).foldlM (columnStep m blank x) columnInit = some row ∧
      row.length = 20 ∧
      (∀ j, j < 4 → row.getD j 0 = columnInit.getD j 0) ∧
      (∀ pin, pin < 128 →
        ((row.getD (4 + pin / 8) 0).testBit (7 - pin % 8) = true ↔
          ∃ y, y < h ∧ bitAt m y x ≠ 0 ∧ y + blank = pin)) := by
  intro h
  induction h with
  | zero =>
    intro _
    refine ⟨columnInit, by simp, columnInit_length, fun j _ => rfl, fun pin hpin => ?_⟩
    rw [columnInit_getD_payload]
    simp
  | succ h ih =>
    intro hin
    obtain ⟨row, hfold, hlen, hhead, hbits⟩ := ih (fun y hy => hin y (Nat.lt_succ_of_lt hy))
    have hpin_h : h + blank < 128 := hin h (Nat.lt_succ_self h)
    rw [List.range_succ, List.foldlM_append, hfold]
    simp only [Option.bind_eq_bind, Option.some_bind, List.foldlM_cons, List.foldlM_nil]
    by_cases hbit : bitAt m h x ≠ 0
    · have hidx : 4 + (h + blank) / 8 < row.length := by
        rw [hlen]; omega
      have hstep : columnStep m blank x row h =
          some (row.set (4 + (h + blank) / 8)
            (row.getD (4 + (h + blank) / 8) 0 ||| (1 <<< (7 - (h + blank) % 8)))) := by
        unfold columnStep setBit
        rw [if_pos hbit, if_pos hidx]
      rw [hstep]
      simp only [Option.some_bind, Option.bind_eq_bind]
      refine ⟨_, rfl, by simpa using hlen, ?_, ?_⟩
      · intro j hj
        rw [getD_set_of_ne (by omega)]
        exact hhead j hj
      · intro pin hpin
        by_cases hJ : 4 + pin / 8 = 4 + (h + blank) / 8
        · have hbyte : ((row.set (4 + (h + blank) / 8)
              (row.getD (4 + (h + blank) / 8) 0 ||| (1 <<< (7 - (h + blank) % 8)))).getD
              (4 + pin / 8) 0)
              = row.getD (4 + (h + blank) / 8) 0 ||| (1 <<< (7 - (h + blank) % 8)) := by
            rw [hJ]; exact getD_set_self hidx
          rw [hbyte, Nat.one_shiftLeft, Nat.testBit_or, Nat.testBit_two_pow]
          have hb' := hbits pin hpin
          rw [hJ] at hb'
          simp only [Bool.or_eq_true, decide_eq_true_eq]
          rw [hb']
          constructor
          · intro hor
            rcases hor with hold | hnew
            · obtain ⟨y, hy, hb, hpy⟩ := hold
              exact ⟨y, Nat.lt_succ_of_lt hy, hb, hpy⟩
            · exact ⟨h, Nat.lt_succ_self h, hbit, by omega⟩
          · rintro ⟨y, hy, hb, hpy⟩
            rcases Nat.lt_succ_iff_lt_or_eq.mp hy with hy' | rfl
            · exact Or.inl ⟨y, hy', hb, hpy⟩
            · exact Or.inr (by omega)
        · rw [getD_set_of_ne (fun e => hJ e.symm)]
          rw [hbits pin hpin]
          constructor
          · rintro ⟨y, hy, hb, hpy⟩
            exact ⟨y, Nat.lt_succ_of_lt hy, hb, hpy⟩
          · rintro ⟨y, hy, hb, hpy⟩
            rcases Nat.lt_succ_iff_lt_or_eq.mp hy with hy' | rfl
            · exact ⟨y, hy', hb, hpy⟩
            · exact absurd (by rw [hpy]) hJ
    · have hstep : columnStep m blank x row h = some row := by
        unfold columnStep
        rw [if_neg hbit]
      rw [hstep]
      simp only [Option.some_bind, Option.bind_eq_bind]
      refine ⟨row, rfl, hlen, hhead, fun pin hpin => ?_⟩
      rw [hbits pin hpin]
      constructor
      · rintro ⟨y, hy, hb, hpy⟩
        exact ⟨y, Nat.lt_succ_of_lt hy, hb, hpy⟩
      · rintro ⟨y, hy, hb, hpy⟩
        rcases Nat.lt_succ_iff_lt_or_eq.mp hy with hy' | rfl
        · exact ⟨y, hy', hb, hpy⟩
        · exact absurd hb hbit

/-- Instantiation of the fold characterisation for `rasterColumn`. -/
lemma rasterColumn_spec (m : BWMatrix) (blank x : Nat)
    (hin : ∀ y, y < m.height → y + blank < 128) :
    ∃ row, rasterColumn m blank x = some row ∧
      row.length = 20 ∧
      (∀ j, j < 4 → row.getD j 0 = columnInit.getD j 0) ∧
      (∀ pin, pin < 128 →
        ((row.getD (4 + pin / 8) 0).testBit (7 - pin % 8) = true ↔
          ∃ y, y < m.height ∧ bitAt m y x ≠ 0 ∧ y + blank = pin)) :=
  rasterAux_spec m blank x m.height hin

/-- Generic success lemma for `List.mapM` over `Option`. -/
lemma mapM_some_of_forall {α β : Type} (f : α → Option β) (P : β → Prop) :
    ∀ l : List α, (∀ a, a ∈ l → ∃ b, f a = some b ∧ P b) →
    ∃ bs, l.mapM f = some bs ∧ bs.length = l.length ∧ ∀ b ∈ bs, P b := by
  intro l
  induction l with
  | nil => intro _; exact ⟨[], rfl, rfl, by simp⟩
  | cons a l ih =>
    intro hall
    obtain ⟨b, hb, hPb⟩ := hall a (List.mem_cons_self a l)
    obtain ⟨bs, hbs, hlen, hP⟩ := ih (fun a' ha' => hall a' (List.mem_cons_of_mem a ha'))
    refine ⟨b :: bs, ?_, by simp [hlen], ?_⟩
    · rw [List.mapM_cons, hb, hbs]
      rfl
    · intro b' hb'
      rcases List.mem_cons.mp hb' with rfl | hmem
      · exact hPb
      · exact hP b' hmem

/-- Generic failure lemma for `List.mapM` over `Option`. -/
lemma mapM_none_of_mem {α β : Type} (f : α → Option β) (a : α) (ha : f a = none) :
    ∀ l : List α, a ∈ l → l.mapM f = none := by
  intro l
  induction l with
  | nil => intro h; cases h
  | cons a' l ih =>
    intro hmem
    rw [List.mapM_cons]
    rcases List.mem_cons.mp hmem with rfl | hmem'
    · rw [ha]; rfl
    · cases hfa : f a' with
      | none => rfl
      | some b => rw [ih hmem']; rfl

/-- Flattening a list of 20-byte frames yields `20 * count` bytes. -/
lemma flatten_length_const (L : List (List Nat)) (h : ∀ c ∈ L, c.length = 20) :
    L.flatten.length = 20 * L.length := by
  induction L with
  | nil => simp
  | cons c L ih =>
    rw [List.flatten_cons, List.length_append, h c (List.mem_cons_self c L),
      ih (fun c' hc' => h c' (List.mem_cons_of_mem c hc'))]
    simp [List.length_cons, Nat.mul_succ]
    omega

/-- A non-negative feed yields a non-negative dot count, and truncation
toward zero agrees with the floor. -/
lemma margin_dots_eq_floor (hi_res : Bool) (feed_mm : ℚ) (hfeed : 0 ≤ feed_mm) :
    margin_dots hi_res feed_mm = ⌊(dots_per_mm hi_res : ℚ) * feed_mm⌋ ∧
      0 ≤ margin_dots hi_res feed_mm := by
  have hq : (0:ℚ) ≤ (dots_per_mm hi_res : ℚ) * feed_mm :=
    mul_nonneg (by positivity) hfeed
  constructor
  · rw [margin_dots, truncInt, if_pos hq]
  · rw [margin_dots, truncInt, if_pos hq]
    exact Int.floor_nonneg.mpr hq

/-- Structural form of a successful encoder run: the stream is exactly the
ordered concatenation of the §4.3 frames. -/
lemma convert_spec (m : BWMatrix) (spec : TapeSpec) (hi_res : Bool) (feed_mm : ℚ)
    (auto_cut : Bool) (hfeed : 0 ≤ feed_mm)
    (hmar : margin_dots hi_res feed_mm < 65536)
    (hh : ∀ y, y < m.height → y + (pins_total - spec.pins) / 2 < 128) :
    ∃ cols, (List.range m.width).mapM (rasterColumn m ((pins_total - spec.pins) / 2)) = some cols ∧
      cols.length = m.width ∧ (∀ c ∈ cols, c.length = 20) ∧
      convert_to_brother_raster m spec hi_res feed_mm auto_cut = some
        (List.replicate 400 0 ++
          [0x1B, 0x40] ++
          [0x1B, 0x69, 0x61, 0x01] ++
          [0x1B, 0x69, 0x7A, 0x84, 0x00, spec.media_byte, 0x00, 0xAA, 0x02, 0x00, 0x00, 0x00, 0x00] ++
          (if auto_cut then [0x1B, 0x69, 0x4D, 0x40] else []) ++
          [0x1B, 0x69, 0x41, 0x01] ++
          [0x1B, 0x69, 0x4B, advByte hi_res] ++
          [0x1B, 0x69, 0x64, (margin_dots hi_res feed_mm).toNat % 256,
            (margin_dots hi_res feed_mm).toNat / 256] ++
          [0x4D, 0x02] ++
          cols.flatten ++
          [0x1A]) := by
  obtain ⟨hfloor, hnonneg⟩ := margin_dots_eq_floor hi_res feed_mm hfeed
  have hpack : packUInt16LE (margin_dots hi_res feed_mm) =
      some [(margin_dots hi_res feed_mm).toNat % 256, (margin_dots hi_res feed_mm).toNat / 256] := by
    rw [packUInt16LE, if_pos ⟨hnonneg, hmar⟩]
  obtain ⟨cols, hcols, hclen, hall⟩ :=
    mapM_some_of_forall (rasterColumn m ((pins_total - spec.pins) / 2))
      (fun c => c.length = 20) (List.range m.width)
      (fun x _ => by
        obtain ⟨row, hrow, hrlen, -, -⟩ := rasterColumn_spec m ((pins_total - spec.pins) / 2) x hh
        exact ⟨row, hrow, hrlen⟩)
  refine ⟨cols, hcols, by simpa using hclen, hall, ?_⟩
  rw [convert_to_brother_raster]
  rw [hpack]
  simp only [Option.bind_eq_bind, Option.some_bind]
  rw [hcols]
  simp only [Option.some_bind, mediaFrame]
  congr 1

/-- When a set pixel maps to a pin at or beyond the head, the graphics fold
fails: the 20-byte buffer has no byte index `4 + bitpos // 8 ≥ 20`. -/
lemma foldlM_columnStep_none (m : BWMatrix) (blank x y : Nat)
    (hbit : bitAt m y x ≠ 0) (hge : 128 ≤ y + blank) :
    ∀ (l : List Nat) (row : List Nat), row.length = 20 → y ∈ l →
      l.foldlM (columnStep m blank x) row = none := by
  intro l
  induction l with
  | nil => intro row _ hmem; cases hmem
  | cons a l ih =>
    intro row hlen hmem
    rw [List.foldlM_cons]
    rcases List.mem_cons.mp hmem with rfl | hmem'
    · have hstep : columnStep m blank x row y = none := by
        unfold columnStep setBit
        rw [if_pos hbit, if_neg (by omega)]
      rw [hstep]
      rfl
    · cases hstep : columnStep m blank x row a with
      | none => rfl
      | some row' =>
        have hlen' : row'.length = 20 := (columnStep_length hstep).trans hlen
        simpa using ih row' hlen' hmem'

/-- A column containing an out-of-range set pixel makes `rasterColumn` fail. -/
lemma rasterColumn_none (m : BWMatrix) (blank x y : Nat)
    (hy : y < m.height) (hbit : bitAt m y x ≠ 0) (hge : 128 ≤ y + blank) :
    rasterColumn m blank x = none :=
  foldlM_columnStep_none m blank x y hbit hge (List.range m.height) columnInit
    columnInit_length (List.mem_range.mpr hy)

/-- Whole-encoder failure: any set pixel beyond the head aborts the encoder
with no output at all. -/
lemma convert_none_of_overflow (m : BWMatrix) (spec : TapeSpec) (hi_res : Bool)
    (feed_mm : ℚ) (auto_cut : Bool) (x y : Nat)
    (hx : x < m.width) (hy : y < m.height) (hbit : bitAt m y x ≠ 0)
    (hge : 128 ≤ y + (pins_total - spec.pins) / 2) :
    convert_to_brother_raster m spec hi_res feed_mm auto_cut = none := by
  have hcol : rasterColumn m ((pins_total - spec.pins) / 2) x = none :=
    rasterColumn_none m ((pins_total - spec.pins) / 2) x y hy hbit hge
  have hmap : (List.range m.width).mapM (rasterColumn m ((pins_total - spec.pins) / 2)) = none :=
    mapM_none_of_mem _ x hcol (List.range m.width) (List.mem_range.mpr hx)
  rw [convert_to_brother_raster]
  cases hpack : packUInt16LE (margin_dots hi_res feed_mm) with
  | none => rfl
  | some marginBytes =>
    simp only [Option.bind_eq_bind, Option.some_bind, hmap]
    rfl

/-- Indexing a map over `List.range`. -/
lemma getD_map_range {α : Type} (n : Nat) (g : Nat → α) (d : α) (i : Nat) (hi : i < n) :
    ((List.range n).map g).getD i d = g i := by
  rw [List.getD_eq_getElem?_getD, List.getElem?_map, List.getElem?_range hi]
  rfl

/-- Length of the row-major flattening of an `h × w` pixel grid. -/
lemma rows_flatten_length (w : Nat) (f : Nat → Nat → Nat) :
    ∀ h : Nat,
      (((List.range h).map (fun y => (List.range w).map (fun x => f x y))).flatten).length
        = h * w := by
  intro h
  induction h with
  | zero => simp
  | succ h ih =>
    rw [List.range_succ, List.map_append, List.flatten_append, List.length_append, ih]
    simp [Nat.succ_mul]

/-- Row-major indexing: entry `y * w + x` of the flattened pixel grid is the
pixel at column `x`, row `y`. -/
lemma rows_flatten_getD (w : Nat) (f : Nat → Nat → Nat) :
    ∀ h y x : Nat, y < h → x < w →
      (((List.range h).map (fun y => (List.range w).map (fun x => f x y))).flatten).getD
        (y * w + x) 0 = f x y := by
  intro h
  induction h with
  | zero => intro y x hy _; exact absurd hy (Nat.not_lt_zero y)
  | succ h ih =>
    intro y x hy hx
    rw [List.range_succ, List.map_append, List.flatten_append]
    rcases Nat.lt_succ_iff_lt_or_eq.mp hy with hy' | rfl
    · have hbound : y * w + x <
          (((List.range h).map (fun y => (List.range w).map (fun x => f x y))).flatten).length := by
        rw [rows_flatten_length]
        calc y * w + x < y * w + w := by omega
        _ = (y + 1) * w := by ring
        _ ≤ h * w := Nat.mul_le_mul_right w hy'
      rw [List.getD_eq_getElem?_getD, List.getElem?_append_left hbound,
        ← List.getD_eq_getElem?_getD]
      exact ih y x hy' hx
    · have hlen :
          (((List.range y).map (fun y => (List.range w).map (fun x => f x y))).flatten).length
            = y * w := rows_flatten_length w f y
      rw [List.getD_eq_getElem?_getD, List.getElem?_append_right (by omega), hlen]
      have hidx : y * w + x - y * w = x := by omega
      rw [hidx]
      simp only [List.map_cons, List.map_nil, List.flatten_cons, List.flatten_nil,
        List.append_nil]
      rw [← List.getD_eq_getElem?_getD, getD_map_range w _ 0 x hx]

/-- When no width pattern occurs in the lowered descriptor, the `elif`
chain falls through to `none`. -/
lemma matchOne_none {media : String}
    (hpat : ∀ pat ∈ widthPatterns, strContains (lowerStr media) pat = false) :
    matchOne media = none := by
  have h01 := hpat ("3.5") (by decide)
  have h02 := hpat ("3_5") (by decide)
  have h03 := hpat ("6x") (by decide)
  have h04 := hpat ("6mm") (by decide)
  have h05 := hpat ("_6x") (by decide)
  have h06 := hpat ("9x") (by decide)
  have h07 := hpat ("9mm") (by decide)
  have h08 := hpat ("_9x") (by decide)
  have h09 := hpat ("12x") (by decide)
  have h10 := hpat ("12mm") (by decide)
  have h11 := hpat ("_12x") (by decide)
  have h12 := hpat ("18x") (by decide)
  have h13 := hpat ("18mm") (by decide)
  have h14 := hpat ("_18x") (by decide)
  have h15 := hpat ("24x") (by decide)
  have h16 := hpat ("24mm") (by decide)
  have h17 := hpat ("_24x") (by decide)
  simp [matchOne, h01, h02, h03, h04, h05, h06, h07, h08, h09, h10, h11, h12,
    h13, h14, h15, h16, h17]

/-- The whole hint loop returns `none` when no descriptor contains any
width pattern. -/
lemma detectFromMedia_none {hints : List String}
    (h : ∀ media ∈ hints, ∀ pat ∈ widthPatterns, strContains (lowerStr media) pat = false) :
    detectFromMedia hints = none := by
  induction hints with
  | nil => rfl
  | cons media rest ih =>
    have hrest := ih (fun m hm => h m (List.mem_cons_of_mem media hm))
    by_cases he : media.isEmpty
    · simp [detectFromMedia, he, hrest]
    · simp [detectFromMedia, he, hrest,
        matchOne_none (h media (List.mem_cons_self media rest))]

/-- C1: for every valid input the encoder output is exactly the ordered
concatenation of 400 zero bytes, the reset command 1B 40, the 4-byte
raster-mode select ending in 01, the 13-byte media declaration (flags 0x84,
media kind 0x00, the profile width code, then 00 AA 02 00 00 00 00), the
cut-mode frame 1B 69 4D 40 present iff auto_cut, the cut-interval frame
1B 69 41 01 (always), the 4-byte advanced-mode frame, the 5-byte margin
frame, the compression frame 4D 02, one 20-byte graphics frame per matrix
column in column-ascending order, and the finalize byte 1A. -/
theorem C1_frame_ordering (m : BWMatrix) (spec : TapeSpec) (hi_res : Bool)
    (feed_mm : ℚ) (auto_cut : Bool) (hfeed : 0 ≤ feed_mm)
    (hmar : margin_dots hi_res feed_mm < 65536)
    (hh : ∀ y, y < m.height → y + (128 - spec.pins) / 2 < 128) :
    ∃ cols, (List.range m.width).mapM (rasterColumn m ((128 - spec.pins) / 2)) = some cols ∧
      (∀ c ∈ cols, c.length = 20) ∧
      convert_to_brother_raster m spec hi_res feed_mm auto_cut = some
        (List.replicate 400 0 ++
          [0x1B, 0x40] ++
          [0x1B, 0x69, 0x61, 0x01] ++
          [0x1B, 0x69, 0x7A, 0x84, 0x00, spec.media_byte, 0x00, 0xAA, 0x02, 0x00, 0x00, 0x00, 0x00] ++
          (if auto_cut then [0x1B, 0x69, 0x4D, 0x40] else []) ++
          [0x1B, 0x69, 0x41, 0x01] ++
          [0x1B, 0x69, 0x4B, advByte hi_res] ++
          [0x1B, 0x69, 0x64, (margin_dots hi_res feed_mm).toNat % 256,
            (margin_dots hi_res feed_mm).toNat / 256] ++
          [0x4D, 0x02] ++
          cols.flatten ++
          [0x1A]) := by
  obtain ⟨cols, h1, -, h3, h4⟩ := convert_spec m spec hi_res feed_mm auto_cut hfeed hmar hh
  exact ⟨cols, h1, h3, h4⟩

/-- Value of the margin dot count at 1mm feed, high resolution. -/
lemma margin_dots_one : margin_dots true 1 = 14 := by
  have h : (0:ℚ) ≤ (dots_per_mm true : ℚ) * 1 := by norm_num [dots_per_mm]
  rw [margin_dots, truncInt, if_pos h]
  norm_num [dots_per_mm]

/-- Witness for C1 at the concrete 1-by-1 matrix on the W3_5 profile. -/
theorem C1_frame_ordering_witness :
    (0:ℚ) ≤ 1 ∧ margin_dots true 1 < 65536 ∧
    (∀ y, y < testMatrix1.height → y + (128 - spec_W3_5.pins) / 2 < 128) ∧
    (∃ cols, (List.range testMatrix1.width).mapM
        (rasterColumn testMatrix1 ((128 - spec_W3_5.pins) / 2)) = some cols ∧
      (∀ c ∈ cols, c.length = 20) ∧
      convert_to_brother_raster testMatrix1 spec_W3_5 true 1 true = some
        (List.replicate 400 0 ++
          [0x1B, 0x40] ++
          [0x1B, 0x69, 0x61, 0x01] ++
          [0x1B, 0x69, 0x7A, 0x84, 0x00, spec_W3_5.media_byte, 0x00, 0xAA, 0x02, 0x00, 0x00, 0x00, 0x00] ++
          (if true then [0x1B, 0x69, 0x4D, 0x40] else []) ++
          [0x1B, 0x69, 0x41, 0x01] ++
          [0x1B, 0x69, 0x4B, advByte true] ++
          [0x1B, 0x69, 0x64, (margin_dots true 1).toNat % 256,
            (margin_dots true 1).toNat / 256] ++
          [0x4D, 0x02] ++
          cols.flatten ++
          [0x1A])) :=
  ⟨by norm_num, by rw [margin_dots_one]; decide, by decide,
    C1_frame_ordering testMatrix1 spec_W3_5 true 1 true (by norm_num)
      (by rw [margin_dots_one]; decide) (by decide)⟩

/-- C2: for every matrix, profile and column x whose rows all map to pins
below 128, the graphics frame for column x is 20 bytes and its payload has
bit (7 - pin mod 8) of byte (4 + pin div 8) set exactly when some row y with
bits[y][x] set satisfies y + (128 - head_pins) / 2 = pin; unset rows
contribute no set bit, so a shorter matrix is vertically centered. -/
theorem C2_bit_placement (m : BWMatrix) (spec : TapeSpec) (x : Nat)
    (hh : ∀ y, y < m.height → y + (128 - spec.pins) / 2 < 128) :
    ∃ frame, rasterColumn m ((128 - spec.pins) / 2) x = some frame ∧
      frame.length = 20 ∧
      ∀ pin, pin < 128 →
        ((frame.getD (4 + pin / 8) 0).testBit (7 - pin % 8) = true ↔
          ∃ y, y < m.height ∧ bitAt m y x ≠ 0 ∧ y + (128 - spec.pins) / 2 = pin) := by
  obtain ⟨row, h1, h2, -, h4⟩ := rasterColumn_spec m ((128 - spec.pins) / 2) x hh
  exact ⟨row, h1, h2, h4⟩

/-- Witness for C2: a 2-row, 1-column matrix with only row 0 set, on the W6
profile (32 pins, centering offset 48). -/
theorem C2_bit_placement_witness :
    (∀ y, y < (⟨1, 2, [[1], [0]]⟩ : BWMatrix).height → y + (128 - 32) / 2 < 128) ∧
    (∃ frame, rasterColumn ⟨1, 2, [[1], [0]]⟩ ((128 - 32) / 2) 0 = some frame ∧
      frame.length = 20 ∧
      ∀ pin, pin < 128 →
        ((frame.getD (4 + pin / 8) 0).testBit (7 - pin % 8) = true ↔
          ∃ y, y < (⟨1, 2, [[1], [0]]⟩ : BWMatrix).height ∧
            bitAt ⟨1, 2, [[1], [0]]⟩ y 0 ≠ 0 ∧ y + (128 - 32) / 2 = pin)) :=
  ⟨by decide, C2_bit_placement ⟨1, 2, [[1], [0]]⟩ ⟨6, 0x06, 32⟩ 0 (by decide)⟩

set_option maxRecDepth 40000

/-- Counterexample to C3: in the `png_label_printer.py` encoder variant, a
set bit whose pin position lands at or beyond the head does NOT abort the
encoding with zero output; the encoder returns a full 459-byte stream that
is byte-identical to the stream of the all-blank matrix, i.e. the bit is
silently dropped. -/
theorem C3_overflow_counterexample :
    pngLabel_convert_to_brother_raster tallMatrix 6 true
      = pngLabel_convert_to_brother_raster blankTallMatrix 6 true ∧
    (pngLabel_convert_to_brother_raster tallMatrix 6 true).length = 459 := by
  constructor
  · decide
  · decide

/-- C3 (amended): in `convert_to_brother_raster` of `brother_printer.py`
(and the identical loop of `python_ipp_printer.py`), a set bit whose pin
position `y + (128 - head_pins) / 2` reaches 128 or more makes the encoding
fail — with a bytearray index error rather than a dedicated
`MatrixOverflowError`, which exists in no source file — and the caller
receives zero output bytes; the bit is neither dropped nor wrapped.  The
`png_label_printer.py` variant instead silently drops such bits. -/
theorem C3_overflow_aborts (m : BWMatrix) (spec : TapeSpec) (hi_res : Bool)
    (feed_mm : ℚ) (auto_cut : Bool) (x y : Nat)
    (hx : x < m.width) (hy : y < m.height) (hbit : bitAt m y x ≠ 0)
    (hge : 128 ≤ y + (128 - spec.pins) / 2) :
    convert_to_brother_raster m spec hi_res feed_mm auto_cut = none :=
  convert_none_of_overflow m spec hi_res feed_mm auto_cut x y hx hy hbit hge

/-- Witness for the amended C3 on the full-head W24 profile: row 128 is one
past the last pin, and the encoder returns nothing. -/
theorem C3_overflow_aborts_witness :
    0 < overflowMatrix.width ∧ 128 < overflowMatrix.height ∧
    bitAt overflowMatrix 128 0 ≠ 0 ∧ 128 ≤ 128 + (128 - spec_W24.pins) / 2 ∧
    convert_to_brother_raster overflowMatrix spec_W24 true 1 true = none :=
  ⟨by decide, by decide, by decide, by decide,
    C3_overflow_aborts overflowMatrix spec_W24 true 1 true 0 128
      (by decide) (by decide) (by decide) (by decide)⟩

/-- C4: for every input the advanced-mode settings byte equals the
mandatory base 0x0C OR-ed with 0x40 exactly when high resolution is on and
OR-ed with 0x08 exactly when auto-cut is off (an OR that is absorbed, since
0x0C already contains 0x08); in particular bit 3 is set whenever auto-cut
is disabled. -/
theorem C4_advanced_mode_byte : ∀ (hi_res auto_cut : Bool),
    advByte hi_res = 0x0C ||| (if hi_res then 0x40 else 0) ||| (if auto_cut then 0 else 0x08) ∧
    Nat.testBit (advByte hi_res) 3 = true := by
  decide

/-- Counterexample to C5: at 0.75mm feed in high resolution the dot count
14 × 0.75 = 10.5 is truncated by the code to 10 (frame bytes 0A 00), while
the claimed round(10.5) is 11. -/
theorem C5_margin_round_counterexample :
    margin_dots true (3/4) = 10 ∧
    packUInt16LE (margin_dots true (3/4)) = some [10, 0] ∧
    round ((14:ℚ) * (3/4)) = 11 := by
  have h10 : margin_dots true (3/4) = 10 := by
    have h : (0:ℚ) ≤ (dots_per_mm true : ℚ) * (3/4) := by norm_num [dots_per_mm]
    rw [margin_dots, truncInt, if_pos h]
    norm_num [dots_per_mm, Int.floor_eq_iff]
  refine ⟨h10, ?_, ?_⟩
  · rw [h10]; decide
  · rw [round_eq]; norm_num [Int.floor_eq_iff]

/-- C5 (amended): for every non-negative feed margin and both resolution
settings, the margin frame dot count equals the truncation
⌊feed_margin_mm × dots_per_mm⌋ (Python int(), not round), with
dots_per_mm = 14 under high resolution and 7 under standard, encoded as a
two-byte little-endian quantity after the header 1B 69 64. -/
theorem C5_margin_truncation (hi_res : Bool) (feed_mm : ℚ)
    (hfeed : 0 ≤ feed_mm)
    (hbound : ⌊(if hi_res then (14:ℚ) else 7) * feed_mm⌋ < 65536) :
    margin_dots hi_res feed_mm = ⌊(if hi_res then (14:ℚ) else 7) * feed_mm⌋ ∧
    packUInt16LE (margin_dots hi_res feed_mm) = some
      [(⌊(if hi_res then (14:ℚ) else 7) * feed_mm⌋).toNat % 256,
       (⌊(if hi_res then (14:ℚ) else 7) * feed_mm⌋).toNat / 256] := by
  have hcast : ((dots_per_mm hi_res : ℚ)) = if hi_res then (14:ℚ) else 7 := by
    cases hi_res <;> simp [dots_per_mm]
  obtain ⟨hfl, hnn⟩ := margin_dots_eq_floor hi_res feed_mm hfeed
  rw [hcast] at hfl
  refine ⟨hfl, ?_⟩
  rw [packUInt16LE, if_pos ⟨hnn, by rw [hfl]; exact hbound⟩, hfl]

/-- Witness for the amended C5 at 2mm feed, high resolution. -/
theorem C5_margin_truncation_witness :
    (0:ℚ) ≤ 2 ∧ ⌊(if true then (14:ℚ) else 7) * 2⌋ < 65536 ∧
    (margin_dots true 2 = ⌊(if true then (14:ℚ) else 7) * 2⌋ ∧
     packUInt16LE (margin_dots true 2) = some
       [(⌊(if true then (14:ℚ) else 7) * 2⌋).toNat % 256,
        (⌊(if true then (14:ℚ) else 7) * 2⌋).toNat / 256]) :=
  ⟨by norm_num, by norm_num, C5_margin_truncation true 2 (by norm_num) (by norm_num)⟩

/-- C6 (amended): the buffer-clear frame is exactly 400 zero bytes, every
graphics frame is exactly 20 bytes, and the total stream length is the
fixed prefix plus 20 × width plus 1 — with auto-cut enabled,
400 + 2 + 4 + 13 + 4 + 4 + 4 + 5 + 2 + 20 × width + 1, which is 459 bytes
(not 463) for a one-column matrix. -/
theorem C6_stream_length (m : BWMatrix) (spec : TapeSpec) (hi_res : Bool)
    (feed_mm : ℚ) (auto_cut : Bool) (hfeed : 0 ≤ feed_mm)
    (hmar : margin_dots hi_res feed_mm < 65536)
    (hh : ∀ y, y < m.height → y + (128 - spec.pins) / 2 < 128) :
    ∃ cols bs,
      (List.range m.width).mapM (rasterColumn m ((128 - spec.pins) / 2)) = some cols ∧
      (∀ c ∈ cols, c.length = 20) ∧
      convert_to_brother_raster m spec hi_res feed_mm auto_cut = some bs ∧
      bs.take 400 = List.replicate 400 0 ∧
      bs.length = 400 + 2 + 4 + 13 + (if auto_cut then 4 else 0) + 4 + 4 + 5 + 2
        + 20 * m.width + 1 := by
  obtain ⟨cols, h1, hclen, hall, hconv⟩ :=
    convert_spec m spec hi_res feed_mm auto_cut hfeed hmar hh
  refine ⟨cols, _, h1, hall, hconv, ?_, ?_⟩
  · simp only [List.append_assoc]
    rw [List.take_left' (by simp)]
  · have hflat := flatten_length_const cols hall
    simp only [List.length_append, List.length_replicate, List.length_cons,
      List.length_nil, hflat, hclen]
    cases auto_cut <;> simp

/-- Counterexample to C6: the claim's own sum
400 + 2 + 4 + 13 + 4 + 4 + 4 + 5 + 2 + 20 + 1 is 459, and the encoder
produces exactly 459 bytes for a one-column matrix, not the 463 the claim
states. -/
theorem C6_length_counterexample :
    (convert_to_brother_raster testMatrix1 spec_W3_5 true 1 true).map List.length
      = some 459 ∧ (459:Nat) ≠ 463 := by
  constructor
  · obtain ⟨cols, h1, hclen, hall, hconv⟩ :=
      convert_spec testMatrix1 spec_W3_5 true 1 true (by norm_num)
        (by rw [margin_dots_one]; decide) (by decide)
    rw [hconv]
    have hflat := flatten_length_const cols hall
    have hw : cols.length = 1 := hclen
    simp [List.length_append, hflat, hw]
  · decide

/-- Witness for the amended C6 at the concrete 1-by-1 matrix. -/
theorem C6_stream_length_witness :
    (0:ℚ) ≤ 1 ∧ margin_dots true 1 < 65536 ∧
    (∀ y, y < testMatrix1.height → y + (128 - spec_W3_5.pins) / 2 < 128) ∧
    (∃ cols bs,
      (List.range testMatrix1.width).mapM
        (rasterColumn testMatrix1 ((128 - spec_W3_5.pins) / 2)) = some cols ∧
      (∀ c ∈ cols, c.length = 20) ∧
      convert_to_brother_raster testMatrix1 spec_W3_5 true 1 true = some bs ∧
      bs.take 400 = List.replicate 400 0 ∧
      bs.length = 400 + 2 + 4 + 13 + (if true then 4 else 0) + 4 + 4 + 5 + 2
        + 20 * testMatrix1.width + 1) :=
  ⟨by norm_num, by rw [margin_dots_one]; decide, by decide,
    C6_stream_length testMatrix1 spec_W3_5 true 1 true (by norm_num)
      (by rw [margin_dots_one]; decide) (by decide)⟩

/-- C7: a detection hint set containing no recognizable width-indicating
substring makes the resolver return the no-match signal `none` — never an
error, never an arbitrary profile — and the caller then substitutes the
default profile W6. -/
theorem C7_resolver_no_match (hints : List String)
    (h : ∀ media ∈ hints, ∀ pat ∈ widthPatterns, strContains (lowerStr media) pat = false) :
    detectFromMedia hints = none ∧ chooseTapeSize (detectFromMedia hints) = "W6" := by
  have hd := detectFromMedia_none h
  exact ⟨hd, by rw [hd]; rfl⟩

/-- Witness for C7 on two descriptors with no width substring. -/
theorem C7_resolver_no_match_witness :
    (∀ media ∈ (["roll-current", "unknown-media"] : List String),
      ∀ pat ∈ widthPatterns, strContains (lowerStr media) pat = false) ∧
    (detectFromMedia ["roll-current", "unknown-media"] = none ∧
      chooseTapeSize (detectFromMedia ["roll-current", "unknown-media"]) = "W6") :=
  ⟨by decide, C7_resolver_no_match (["roll-current", "unknown-media"]) (by decide)⟩

/-- C8: looking up any identifier outside the fixed supported set fails
with no result (the Python KeyError, before any output bytes exist), and
each of the six supported identifiers maps to exactly its catalogue
profile; the lookup is a pure read with no side effects. -/
theorem C8_tape_lookup (tape_key : String) :
    (tape_key ∉ (["W3_5", "W6", "W9", "W12", "W18", "W24"] : List String) →
      lookupTape tape_key = none) ∧
    lookupTape ("W3_5") = some ⟨7/2, 0x04, 24⟩ ∧
    lookupTape ("W6") = some ⟨6, 0x06, 32⟩ ∧
    lookupTape ("W9") = some ⟨9, 0x09, 50⟩ ∧
    lookupTape ("W12") = some ⟨12, 0x0C, 70⟩ ∧
    lookupTape ("W18") = some ⟨18, 0x12, 112⟩ ∧
    lookupTape ("W24") = some ⟨24, 0x18, 128⟩ := by
  refine ⟨?_, rfl, rfl, rfl, rfl, rfl, rfl⟩
  intro hmem
  simp only [List.mem_cons, List.not_mem_nil, or_false, not_or] at hmem
  obtain ⟨h1, h2, h3, h4, h5, h6⟩ := hmem
  simp [lookupTape, TAPE_SPECS, List.lookup,
    beq_eq_false_iff_ne.mpr h1, beq_eq_false_iff_ne.mpr h2, beq_eq_false_iff_ne.mpr h3,
    beq_eq_false_iff_ne.mpr h4, beq_eq_false_iff_ne.mpr h5, beq_eq_false_iff_ne.mpr h6]

/-- Witness for C8 at the unknown identifier W99. -/
theorem C8_tape_lookup_witness :
    ("W99" : String) ∉ (["W3_5", "W6", "W9", "W12", "W18", "W24"] : List String) ∧
    lookupTape ("W99") = none :=
  ⟨by decide, (C8_tape_lookup ("W99")).1 (by decide)⟩

/-- C9: the encoder is deterministic — its output is a function of the
matrix, profile and options alone, so encoding the same input twice yields
byte-identical output; in the embedding the encoder is a pure function with
no other inputs (no time, randomness or shared mutable state exist in its
Python body). -/
theorem C9_encoder_deterministic :
    ∀ (m : BWMatrix) (spec : TapeSpec) (hi_res : Bool) (feed_mm : ℚ) (auto_cut : Bool),
      convert_to_brother_raster m spec hi_res feed_mm auto_cut =
        convert_to_brother_raster m spec hi_res feed_mm auto_cut :=
  fun _ _ _ _ _ => rfl

/-- C10: the two matrix-conversion variants are equivalent — for every
grayscale image and threshold, `png_to_bw_matrix` (brother_printer.py) and
`png_to_black_white_matrix` (png_label_printer.py) return identical
results: width and height equal to the image dimensions, and entry (y, x)
equal to 1 exactly when the pixel at (x, y) is strictly below the
threshold, else 0. -/
theorem C10_matrix_conversion_equiv (img : GrayImage) (threshold : Nat) :
    png_to_bw_matrix img threshold = png_to_black_white_matrix img threshold ∧
    (png_to_bw_matrix img threshold).width = img.w ∧
    (png_to_bw_matrix img threshold).height = img.h ∧
    ∀ y x, y < img.h → x < img.w →
      bitAt (png_to_bw_matrix img threshold) y x =
        if img.pix x y < threshold then 1 else 0 := by
  refine ⟨?_, rfl, rfl, ?_⟩
  · simp only [png_to_bw_matrix, png_to_black_white_matrix, BWMatrix.mk.injEq, true_and]
    apply List.map_congr_left
    intro y hy
    apply List.map_congr_left
    intro x hx
    rw [getdata, rows_flatten_getD img.w img.pix img.h y x
      (List.mem_range.mp hy) (List.mem_range.mp hx)]
  · intro y x hy hx
    simp only [bitAt, png_to_bw_matrix]
    rw [getD_map_range img.h _ [] y hy, getD_map_range img.w _ 0 x hx]

/-- Witness for C10 at a concrete 2-by-2 image with pixel values 0, 1, 10,
11 and threshold 11. -/
theorem C10_matrix_conversion_equiv_witness :
    png_to_bw_matrix ⟨2, 2, fun x y => x + 10 * y⟩ 11
        = png_to_black_white_matrix ⟨2, 2, fun x y => x + 10 * y⟩ 11 ∧
    (png_to_bw_matrix ⟨2, 2, fun x y => x + 10 * y⟩ 11).width
        = (⟨2, 2, fun x y => x + 10 * y⟩ : GrayImage).w ∧
    (png_to_bw_matrix ⟨2, 2, fun x y => x + 10 * y⟩ 11).height
        = (⟨2, 2, fun x y => x + 10 * y⟩ : GrayImage).h ∧
    ∀ y x, y < (⟨2, 2, fun x y => x + 10 * y⟩ : GrayImage).h →
      x < (⟨2, 2, fun x y => x + 10 * y⟩ : GrayImage).w →
      bitAt (png_to_bw_matrix ⟨2, 2, fun x y => x + 10 * y⟩ 11) y x =
        if (⟨2, 2, fun x y => x + 10 * y⟩ : GrayImage).pix x y < 11 then 1 else 0 :=
  C10_matrix_conversion_equiv ⟨2, 2, fun x y => x + 10 * y⟩ 11
